import Mathlib

/-!
Verification development for the `rpa-facturas` remote-upload protocol engine.

The Python source under `src/` is embedded shallowly:

* `src/models/mutualser.py` — `Mensaje`, `Archivo`, `FindLoadResponse` and
  their derived properties (`simplified_description`, `motivo_error`,
  `sin_errores`, `cargado_exitoso`, `estado_basado_en_archivos`, `done`,
  `primer_archivo`, `unico_archivo`).
* `src/services/mutualser.py` — the `_token_required` re-authentication
  wrapper, the `find_load_status` polling loop, and the header mutations of
  `upload_to_google`.
* `src/models/general.py` — `Record.__setattr__` (timestamp refresh on field
  writes) and `Run` (a `defaultdict(Record)` keyed by invoice number).

Python strings are embedded as Lean `String`; `str.split(' ')` /
`' '.join` and POSIX `pathlib.Path(...).name` are reimplemented over
`List Char` below, mirroring CPython semantics (split on an explicit
separator keeps empty fields; `Path.name` is the last component after
dropping empty and `'.'` components).  `datetime` values and UUIDs are
embedded as `Nat` (only ordering and equality of timestamps matter to the
claims).  The wall clock is passed explicitly as a `Nat` argument wherever
the source calls `datetime.now()`.
-/

namespace RpaFacturas

/-! ## Python string primitives -/

/-- `s.split(c)` for a single-character separator, CPython semantics:
empty fields are kept, so the result is never the empty list. -/
def splitOnChar (c : Char) : List Char → List (List Char)
  | [] => [[]]
  | x :: xs =>
    let r := splitOnChar c xs
    if x = c then [] :: r else (x :: r.headD []) :: r.tail

/-- `c.join(ws)` for a single-character separator. -/
def joinWith (c : Char) : List (List Char) → List Char
  | [] => []
  | [w] => w
  | w :: ws => w ++ c :: joinWith c ws

/-- POSIX `pathlib.PurePath(w).name`: the final path component, with empty
and `'.'` components dropped; `""` when no component remains. -/
def pathName (w : List Char) : List Char :=
  (((splitOnChar '/' w).filter
      (fun comp => !comp.isEmpty && !(comp == ['.']))).getLast?).getD []

/-- One word of `Mensaje.simplified_description`: a word containing a slash
or a backslash is replaced by `Path(word).name`, any other word is kept. -/
def simplifyWord (w : List Char) : List Char :=
  if '/' ∈ w ∨ '\\' ∈ w then pathName w else w

/-- The whole sanitization underlying `Mensaje.simplified_description`:
split on `' '`, simplify each word, re-join with `' '`. -/
def sanitizeDescription (s : String) : String :=
  String.mk (joinWith ' ' ((splitOnChar ' ' s.data).map simplifyWord))

/-! ## `src/models/mutualser.py` data model -/

structure Mensaje where
  codigo : String
  descripcion : String
  tipo : String
  idArchivo : Nat
deriving Repr, DecidableEq

/-- `Mensaje.simplified_description`. -/
def Mensaje.simplified_description (m : Mensaje) : String :=
  sanitizeDescription m.descripcion

structure Archivo where
  codigo : String
  estado : String
  extension : String
  fechaCargue : Nat
  id : Nat
  idTipo : Nat
  mensajes : List Mensaje
  nombre : String
deriving Repr, DecidableEq

/-- `Archivo.cargado`: `estado == 'CARGADO'`. -/
def Archivo.cargado (a : Archivo) : Bool :=
  a.estado == "CARGADO"

/-- `Archivo.motivo_error`: `'| '.join(f"{m.codigo}. {m.simplified_description}")`
over the messages when there are any, `""` otherwise. -/
def Archivo.motivo_error (a : Archivo) : String :=
  if !a.mensajes.isEmpty then
    String.intercalate "| "
      (a.mensajes.map (fun m => m.codigo ++ ". " ++ m.simplified_description))
  else ""

/-- `Archivo.sin_errores`: `not bool(self.mensajes)`. -/
def Archivo.sin_errores (a : Archivo) : Bool :=
  a.mensajes.isEmpty

structure FindLoadResponse where
  archivos : List Archivo
  cantidad : Int
  email : String
  estado : String
  estadoValidaciones : Option String
  fecha : Nat
  id : Nat
  nombres : List String
  organizacion : String
  usuario : String
  nombreOrganizacion : Option String
deriving Repr, DecidableEq

/-- `FindLoadResponse.primer_archivo` is `self.archivos[0]`; indexing an
empty list raises in Python, so the embedding returns an `Option`. -/
def FindLoadResponse.primer_archivo (r : FindLoadResponse) : Option Archivo :=
  r.archivos.head?

/-- `FindLoadResponse.unico_archivo` is an alias of `primer_archivo`. -/
def FindLoadResponse.unico_archivo (r : FindLoadResponse) : Option Archivo :=
  r.primer_archivo

/-- `FindLoadResponse.cargado_exitoso`:
`True` iff `self.archivos` is truthy and `self.unico_archivo.sin_errores`. -/
def FindLoadResponse.cargado_exitoso (r : FindLoadResponse) : Bool :=
  if !r.archivos.isEmpty && ((r.unico_archivo.map Archivo.sin_errores).getD false) then
    true
  else
    false

/-- `FindLoadResponse.estado_basado_en_archivos`: the first sub-file's state
when sub-files exist, the root state otherwise. -/
def FindLoadResponse.estado_basado_en_archivos (r : FindLoadResponse) : String :=
  match r.primer_archivo with
  | some a => a.estado
  | none => r.estado

/-- `FindLoadResponse.done`: the first sub-file's `cargado` when sub-files
exist, `False` otherwise. -/
def FindLoadResponse.done (r : FindLoadResponse) : Bool :=
  match r.primer_archivo with
  | some a => a.cargado
  | none => false

/-- What the specification's words state for the failure reason: the
per-message `"<code>. <description>"` strings joined with the bare `'|'`
separator.  Named after the spec, to be compared with the source's
`Archivo.motivo_error` (which joins with `"| "`). -/
def motivoErrorClaimed (a : Archivo) : String :=
  String.intercalate "|"
    (a.mensajes.map (fun m => m.codigo ++ ". " ++ m.simplified_description))

/-- A sub-file result carrying two messages, used to compare the joining
separator of `motivo_error` against the claimed one. -/
def archivoDosMensajes : Archivo :=
  { codigo := "1", estado := "ERROR", extension := "zip", fechaCargue := 0,
    id := 0, idTipo := 0,
    mensajes :=
      [{ codigo := "E1", descripcion := "Error 1", tipo := "ERROR", idArchivo := 0 },
       { codigo := "E2", descripcion := "Error 2", tipo := "ERROR", idArchivo := 0 }],
    nombre := "f.zip" }

/-- The sub-file result of the spec's end-to-end scenario B: one message
whose description embeds the server-side path `/tmp/x.zip`. -/
def archivoEscenarioB : Archivo :=
  { codigo := "1", estado := "ERROR", extension := "zip", fechaCargue := 0,
    id := 0, idTipo := 0,
    mensajes :=
      [{ codigo := "E1", descripcion := "El archivo /tmp/x.zip no contiene PDF.",
         tipo := "ERROR", idArchivo := 0 }],
    nombre := "x.zip" }

/-! ## `src/services/mutualser.py`: the `_token_required` wrapper -/

/-- Outcome of one invocation of a wrapped API call: a returned value, or a
`requests.RequestException` whose response — when there is one — carries an
HTTP status code. -/
inductive CallOutcome (α : Type) where
  | ok : α → CallOutcome α
  | requestError : Option Nat → CallOutcome α
deriving Repr, DecidableEq

/-- Trace of one logical call through `_token_required`: the final outcome
(the wrapper's return value, or the exception it lets propagate), the
number of invocations of the wrapped function, and the number of `login()`
calls the wrapper performed. -/
structure WrapperRun (α : Type) where
  result : CallOutcome α
  invocations : Nat
  logins : Nat
deriving Repr, DecidableEq

/-- `_token_required`'s `wrapper`: `hasToken` is whether
`client_instance.access_token` is already set (if not, an initial login
happens before the first invocation); `call i` is the outcome of the
`i`-th invocation of the decorated function. -/
def tokenRequired {α : Type} (hasToken : Bool) (call : Nat → CallOutcome α) :
    WrapperRun α :=
  let initialLogins : Nat := if hasToken then 0 else 1
  match call 0 with
  | .ok v => ⟨.ok v, 1, initialLogins⟩
  | .requestError response =>
    match response with
    | some code =>
      if code = 401 then
        ⟨call 1, 2, initialLogins + 1⟩
      else
        ⟨.requestError (some code), 1, initialLogins⟩
    | none => ⟨.requestError none, 1, initialLogins⟩

/-! ## `src/services/mutualser.py`: the `find_load_status` polling loop -/

/-- How `find_load_status` ends: a terminal snapshot returned normally, the
`ValueError` raised after the loop (carrying the last observed state and
the transaction id), or — for `max_retries = 0` — the `UnboundLocalError`
from reading the never-assigned `resp_obj` in the message. -/
inductive PollResult where
  | ok : FindLoadResponse → PollResult
  | timeout (lastEstado : String) (transactionId : String) : PollResult
  | unboundLocal : PollResult
deriving Repr, DecidableEq

/-- Trace of one `find_load_status` run: how it ended, how many status
fetches (`_make_request` calls) it made, and how many `time.sleep` calls
it made. -/
structure PollRun where
  result : PollResult
  fetches : Nat
  sleeps : Nat
deriving Repr, DecidableEq

/-- The `for attempt in range(max_retries)` loop of `find_load_status`.
`fuel` counts the remaining iterations (the current `attempt` is
`max_retries - fuel`); `last` is the current value of `resp_obj`, needed
by the `ValueError` raised after the loop; `responses i` is the snapshot
parsed from the `i`-th fetch. A fetch is counted at every iteration; a
sleep only when `attempt < max_retries - 1`. -/
def findLoadStatusLoop (responses : Nat → FindLoadResponse) (transId : String)
    (max_retries : Nat) : Nat → Option FindLoadResponse → PollRun
  | 0, none => ⟨.unboundLocal, 0, 0⟩
  | 0, some last => ⟨.timeout last.estado_basado_en_archivos transId, 0, 0⟩
  | fuel + 1, _ =>
    let attempt := max_retries - (fuel + 1)
    let resp := responses attempt
    if resp.done then ⟨.ok resp, 1, 0⟩
    else
      let sleepsHere : Nat := if attempt < max_retries - 1 then 1 else 0
      let rest := findLoadStatusLoop responses transId max_retries fuel (some resp)
      ⟨rest.result, rest.fetches + 1, rest.sleeps + sleepsHere⟩

/-- `MutualSerAPIClient.find_load_status`, abstracted over the sequence of
parsed snapshots and the session's transaction id. -/
def find_load_status (responses : Nat → FindLoadResponse) (transId : String)
    (max_retries : Nat) : PollRun :=
  findLoadStatusLoop responses transId max_retries max_retries none

/-! ## `src/services/mutualser.py`: session headers in `upload_to_google` -/

/-- `requests` stores session headers in a `CaseInsensitiveDict`: keys are
compared lower-cased. -/
def lowerKey (k : String) : String :=
  String.mk (k.data.map Char.toLower)

/-- The session header mapping (insertion-ordered, one entry per
lower-cased key). -/
abbrev Headers := List (String × String)

/-- Case-insensitive lookup, `headers.get(k)`. -/
def headersGet (h : Headers) (k : String) : Option String :=
  (h.find? (fun p => lowerKey p.1 == lowerKey k)).map (fun p => p.2)

/-- Case-insensitive upsert, `headers[k] = v` (one step of
`session.headers.update`). -/
def headersSet (h : Headers) (k : String) (v : String) : Headers :=
  if h.any (fun p => lowerKey p.1 == lowerKey k) then
    h.map (fun p => if lowerKey p.1 == lowerKey k then (k, v) else p)
  else
    h ++ [(k, v)]

/-- Case-insensitive removal, `del headers[k]` (in `upload_to_google` the
key was set two statements earlier, so the `KeyError` branch is dead). -/
def headersDel (h : Headers) (k : String) : Headers :=
  h.filter (fun p => !(lowerKey p.1 == lowerKey k))

/-- The net effect of `MutualSerAPIClient.upload_to_google` on the session
headers: set the transfer-specific headers, issue the PUT (no header
effect), restore the JSON content type, delete the content-length
override. -/
def upload_to_google_headers (h : Headers) (contentLength : String) : Headers :=
  let h1 := headersSet h "Content-Type" "application/zip"
  let h2 := headersSet h1 "Content-Length" contentLength
  let h3 := headersSet h2 "Content-Type" "application/json"
  headersDel h3 "Content-Length"

/-! ## `src/models/general.py`: `Record` and `Run` -/

/-- `src/models/google.py` `EmailMessage`: only `id` and `thread_id` are
required; the rest default to `None`/`False`. Paths are embedded as
strings. -/
structure EmailMessage where
  id : String
  thread_id : String
  subject : Option String := none
  seen : Bool := false
  received_at : Option Nat := none
  body_html : Option String := none
  recipient : Option String := none
  attachment_path : Option String := none
  pdf_path : Option String := none
deriving Repr, DecidableEq

/-- A pydantic validation error naming the missing required field. -/
structure ValidationError where
  missingField : String
deriving Repr, DecidableEq

/-- The per-invoice ledger record of `src/models/general.py`.
`errors` is the list of reason strings appended by
`Process.post_exception`; `finished_at` is the last-mutated-at
timestamp. -/
structure Record where
  started_at : Nat
  email : EmailMessage
  response_mutualser : Option FindLoadResponse
  status : String
  errors : List String
  finished_at : Nat
deriving Repr, DecidableEq

/-- Pydantic construction of `Record(**data)`: `email` has no default and
is required, so construction without it fails; `started_at` and
`finished_at` default to `datetime.now()` drawn in field order
(`nowStart` first, then `nowFinish`). -/
def Record.construct (email : Option EmailMessage) (nowStart nowFinish : Nat) :
    Except ValidationError Record :=
  match email with
  | none => .error ⟨"email"⟩
  | some e => .ok ⟨nowStart, e, none, "", [], nowFinish⟩

/-- An attribute assignment `record.<name> = v` as dispatched to
`Record.__setattr__`. -/
inductive FieldWrite where
  | started_at (v : Nat)
  | email (v : EmailMessage)
  | response_mutualser (v : Option FindLoadResponse)
  | status (v : String)
  | errors (v : List String)
  | finished_at (v : Nat)
deriving Repr

/-- The `name` argument `Record.__setattr__` receives for the write. -/
def FieldWrite.fieldName : FieldWrite → String
  | .started_at _ => "started_at"
  | .email _ => "email"
  | .response_mutualser _ => "response_mutualser"
  | .status _ => "status"
  | .errors _ => "errors"
  | .finished_at _ => "finished_at"

/-- `Record.__setattr__` on an initialized record: any write whose name is
not in `{"finished_at", "_initialized"}` first refreshes `finished_at` to
`datetime.now()` (`now`), then the named field is assigned. -/
def Record.setattr (r : Record) (now : Nat) (f : FieldWrite) : Record :=
  let r1 :=
    if f.fieldName ∉ (["finished_at", "_initialized"] : List String) then
      { r with finished_at := now }
    else r
  match f with
  | .started_at v => { r1 with started_at := v }
  | .email v => { r1 with email := v }
  | .response_mutualser v => { r1 with response_mutualser := v }
  | .status v => { r1 with status := v }
  | .errors v => { r1 with errors := v }
  | .finished_at v => { r1 with finished_at := v }

/-- `record.errors.append(reason)` (as in `Process.post_exception`): an
in-place mutation of the list object — it reads `errors` via
`__getattribute__` and never calls `Record.__setattr__`. -/
def Record.errors_append (r : Record) (reason : String) : Record :=
  { r with errors := r.errors ++ [reason] }

/-- `Reasons.INVOCE_UPLOADED_WITH_ERROR` from `src/constants.py`. -/
def INVOCE_UPLOADED_WITH_ERROR : String :=
  "Factura NO CARGADA en Mutual Ser"

/-- The ledger mutations the program performs on a `Record` after
construction (`Process.finish`, `Process.post_exception` and
`send_invoice_to_mutual_ser` only ever assign `status`, assign
`response_mutualser`, or append to `errors`), each stamped with a
`datetime.now()` value that is ≥ the record's current `finished_at`
(the wall clock does not run backwards). -/
inductive RecordEvolves : Record → Record → Prop where
  | refl (r : Record) : RecordEvolves r r
  | set_status {r0 r : Record} (h : RecordEvolves r0 r) (now : Nat)
      (hnow : r.finished_at ≤ now) (v : String) :
      RecordEvolves r0 (r.setattr now (.status v))
  | set_response {r0 r : Record} (h : RecordEvolves r0 r) (now : Nat)
      (hnow : r.finished_at ≤ now) (v : Option FindLoadResponse) :
      RecordEvolves r0 (r.setattr now (.response_mutualser v))
  | append_error {r0 r : Record} (h : RecordEvolves r0 r) (v : String) :
      RecordEvolves r0 (r.errors_append v)

/-- The `Run` ledger: `record` is `defaultdict(Record, {...})`, embedded as
an insertion-ordered association list keyed by invoice number. -/
structure Run where
  date : Nat
  record : List (String × Record)
deriving Repr, DecidableEq

/-- `run.record[invoiceId]` under `defaultdict(Record, ...)` semantics: a
present key returns its stored record and leaves the mapping untouched; a
missing key calls the default factory `Record()` — which pydantic rejects,
because `email` is required — and only on success would insert the fresh
record. -/
def Run.getRecord (run : Run) (invoiceId : String) (nowStart nowFinish : Nat) :
    Except ValidationError (Run × Record) :=
  match run.record.lookup invoiceId with
  | some r => .ok (run, r)
  | none =>
    match Record.construct none nowStart nowFinish with
    | .ok r => .ok ({ run with record := run.record ++ [(invoiceId, r)] }, r)
    | .error e => .error e

/-! ## Concrete sample data -/

/-- A wrapped call that fails with HTTP 401 on its first invocation and
succeeds on the retry. -/
def callEjemplo : Nat → CallOutcome Nat :=
  fun i => if i = 0 then .requestError (some 401) else .ok 42

/-- A sub-file result in the terminal `'CARGADO'` state with no messages. -/
def archivoCargado : Archivo :=
  { codigo := "1", estado := "CARGADO", extension := "zip", fechaCargue := 0,
    id := 0, idTipo := 0, mensajes := [], nombre := "n.zip" }

/-- A sub-file result still in process. -/
def archivoEnProceso : Archivo :=
  { codigo := "1", estado := "EN_PROCESO", extension := "zip", fechaCargue := 0,
    id := 0, idTipo := 0, mensajes := [], nombre := "n.zip" }

/-- A terminal snapshot. -/
def respuestaCargada : FindLoadResponse :=
  { archivos := [archivoCargado], cantidad := 1, email := "t@t",
    estado := "FINALIZADO", estadoValidaciones := none, fecha := 0, id := 0,
    nombres := ["n.zip"], organizacion := "o", usuario := "u",
    nombreOrganizacion := none }

/-- A non-terminal snapshot. -/
def respuestaEnProceso : FindLoadResponse :=
  { archivos := [archivoEnProceso], cantidad := 1, email := "t@t",
    estado := "EN_PROCESO", estadoValidaciones := none, fecha := 0, id := 0,
    nombres := ["n.zip"], organizacion := "o", usuario := "u",
    nombreOrganizacion := none }

/-- A status endpoint that always answers with the terminal snapshot. -/
def respuestasCargadas : Nat → FindLoadResponse := fun _ => respuestaCargada

/-- A status endpoint that always answers with the in-process snapshot. -/
def respuestasEnProceso : Nat → FindLoadResponse := fun _ => respuestaEnProceso

/-- A minimal valid e-mail message. -/
def emailEjemplo : EmailMessage :=
  { id := "m1", thread_id := "t1" }

/-- The ledger record `Record(email=emailEjemplo)` constructed at time 0. -/
def recordEjemplo : Record :=
  { started_at := 0, email := emailEjemplo, response_mutualser := none,
    status := "", errors := [], finished_at := 0 }

/-- A session header mapping as `login()` leaves it. -/
def headersEjemplo : Headers :=
  [("accept", "application/json, text/plain, */*"),
   ("content-type", "application/json"),
   ("Authorization", "Bearer tok")]

/-! ## Lemmas about the string primitives -/

theorem splitOnChar_ne_nil (c : Char) (l : List Char) : splitOnChar c l ≠ [] := by
  cases l with
  | nil => simp [splitOnChar]
  | cons x xs =>
    simp only [splitOnChar]
    split <;> simp

theorem not_mem_of_mem_splitOnChar {c : Char} {l : List Char} {w : List Char}
    (hw : w ∈ splitOnChar c l) : c ∉ w := by
  induction l generalizing w with
  | nil =>
    simp only [splitOnChar, List.mem_singleton] at hw
    simp [hw]
  | cons x xs ih =>
    cases h0 : splitOnChar c xs with
    | nil => exact absurd h0 (splitOnChar_ne_nil c xs)
    | cons w0 ws0 =>
      simp only [splitOnChar, h0, List.headD_cons, List.tail_cons] at hw
      by_cases hx : x = c
      · simp only [hx, if_true, eq_self_iff_true, ite_true, List.mem_cons] at hw
        rcases hw with rfl | hw
        · simp
        · exact ih (h0 ▸ List.mem_cons.mpr hw)
      · simp only [if_neg hx, List.mem_cons] at hw
        rcases hw with rfl | hw
        · intro hc
          rcases List.mem_cons.mp hc with rfl | hc
          · exact hx rfl
          · exact ih (h0 ▸ List.mem_cons_self w0 ws0) hc
        · exact ih (h0 ▸ List.mem_cons_of_mem w0 hw)

theorem mem_of_mem_splitOnChar {c x : Char} {l w : List Char}
    (hw : w ∈ splitOnChar c l) (hx : x ∈ w) : x ∈ l := by
  induction l generalizing w with
  | nil =>
    simp only [splitOnChar, List.mem_singleton] at hw
    subst hw
    simp at hx
  | cons y ys ih =>
    cases h0 : splitOnChar c ys with
    | nil => exact absurd h0 (splitOnChar_ne_nil c ys)
    | cons w0 ws0 =>
      simp only [splitOnChar, h0, List.headD_cons, List.tail_cons] at hw
      by_cases hy : y = c
      · simp only [hy, if_true, eq_self_iff_true, ite_true, List.mem_cons] at hw
        rcases hw with rfl | hw
        · simp at hx
        · exact List.mem_cons_of_mem y (ih (h0 ▸ List.mem_cons.mpr hw) hx)
      · simp only [if_neg hy, List.mem_cons] at hw
        rcases hw with rfl | hw
        · rcases List.mem_cons.mp hx with rfl | hx
          · exact List.mem_cons_self x ys
          · exact List.mem_cons_of_mem y (ih (h0 ▸ List.mem_cons_self w0 ws0) hx)
        · exact List.mem_cons_of_mem y (ih (h0 ▸ List.mem_cons_of_mem w0 hw) hx)

theorem splitOnChar_of_not_mem {c : Char} {w : List Char} (h : c ∉ w) :
    splitOnChar c w = [w] := by
  induction w with
  | nil => simp [splitOnChar]
  | cons x xs ih =>
    have hx : x ≠ c := fun hc => h (hc ▸ List.mem_cons_self x xs)
    have hxs : c ∉ xs := fun hc => h (List.mem_cons_of_mem x hc)
    simp [splitOnChar, ih hxs, if_neg hx]

theorem splitOnChar_append {c : Char} {w rest : List Char} (h : c ∉ w) :
    splitOnChar c (w ++ c :: rest) = w :: splitOnChar c rest := by
  induction w with
  | nil =>
    simp [splitOnChar]
  | cons x xs ih =>
    have hx : x ≠ c := fun hc => h (hc ▸ List.mem_cons_self x xs)
    have hxs : c ∉ xs := fun hc => h (List.mem_cons_of_mem x hc)
    simp [List.cons_append, splitOnChar, ih hxs, if_neg hx]

theorem splitOnChar_joinWith {c : Char} {ws : List (List Char)} (hne : ws ≠ [])
    (h : ∀ w ∈ ws, c ∉ w) : splitOnChar c (joinWith c ws) = ws := by
  induction ws with
  | nil => exact absurd rfl hne
  | cons w tl ih =>
    cases tl with
    | nil =>
      simp only [joinWith]
      exact splitOnChar_of_not_mem (h w (List.mem_cons_self w []))
    | cons w' tl' =>
      have hjoin : joinWith c (w :: w' :: tl') = w ++ c :: joinWith c (w' :: tl') := rfl
      rw [hjoin, splitOnChar_append (h w (List.mem_cons_self w _)),
        ih (by simp) (fun u hu => h u (List.mem_cons_of_mem w hu))]

/-! ## Lemmas about `pathName` and `simplifyWord` -/

theorem pathName_spec (w : List Char) :
    pathName w = [] ∨
      (pathName w ∈ splitOnChar '/' w ∧ pathName w ≠ [] ∧ pathName w ≠ ['.']) := by
  unfold pathName
  cases hlast : ((splitOnChar '/' w).filter
      (fun comp => !comp.isEmpty && !(comp == ['.']))).getLast? with
  | none => left; rfl
  | some v =>
    right
    have hv : v ∈ (splitOnChar '/' w).filter
        (fun comp => !comp.isEmpty && !(comp == ['.'])) :=
      List.mem_of_mem_getLast? hlast
    obtain ⟨hmem, hp⟩ := List.mem_filter.mp hv
    simp only [Option.getD_some]
    refine ⟨hmem, ?_, ?_⟩
    · intro hnil
      rw [hnil] at hp
      simp at hp
    · intro hdot
      rw [hdot] at hp
      simp at hp

theorem slash_not_mem_pathName (w : List Char) : '/' ∉ pathName w := by
  rcases pathName_spec w with h | ⟨hmem, -, -⟩
  · rw [h]; simp
  · exact not_mem_of_mem_splitOnChar hmem

theorem pathName_ne_dot (w : List Char) : pathName w ≠ ['.'] := by
  rcases pathName_spec w with h | ⟨-, -, h⟩
  · rw [h]; simp
  · exact h

theorem mem_of_mem_pathName {x : Char} {w : List Char} (hx : x ∈ pathName w) :
    x ∈ w := by
  rcases pathName_spec w with h | ⟨hmem, -, -⟩
  · rw [h] at hx; simp at hx
  · exact mem_of_mem_splitOnChar hmem hx

theorem pathName_of_not_mem {w : List Char} (h : '/' ∉ w) :
    pathName w = if w = [] ∨ w = ['.'] then [] else w := by
  unfold pathName
  rw [splitOnChar_of_not_mem h]
  by_cases h1 : w = [] ∨ w = ['.']
  · rcases h1 with rfl | rfl <;> simp
  · push_neg at h1
    obtain ⟨hne, hdot⟩ := h1
    rw [if_neg (by push_neg; exact ⟨hne, hdot⟩)]
    have hemp : w.isEmpty = false := by
      cases w with
      | nil => exact absurd rfl hne
      | cons a l => rfl
    have hbeq : (w == ['.']) = false := by
      simpa using hdot
    simp [List.filter, hemp, hbeq]

theorem pathName_pathName (w : List Char) : pathName (pathName w) = pathName w := by
  rcases pathName_spec w with h | ⟨hmem, hne, hdot⟩
  · rw [h]; decide
  · rw [pathName_of_not_mem (slash_not_mem_pathName w)]
    rw [if_neg (by push_neg; exact ⟨hne, hdot⟩)]

theorem simplifyWord_idem (w : List Char) :
    simplifyWord (simplifyWord w) = simplifyWord w := by
  by_cases h1 : '/' ∈ w ∨ '\\' ∈ w
  · have hw : simplifyWord w = pathName w := by
      simp only [simplifyWord, if_pos h1]
    rw [hw]
    by_cases h2 : '/' ∈ pathName w ∨ '\\' ∈ pathName w
    · simp only [simplifyWord, if_pos h2]
      exact pathName_pathName w
    · simp only [simplifyWord, if_neg h2]
  · have hw : simplifyWord w = w := by
      simp only [simplifyWord, if_neg h1]
    rw [hw, hw]

theorem not_space_simplifyWord {w : List Char} (h : ' ' ∉ w) :
    ' ' ∉ simplifyWord w := by
  simp only [simplifyWord]
  split_ifs with hc
  · intro hs
    exact h (mem_of_mem_pathName hs)
  · exact h

theorem sanitizeDescription_idem (s : String) :
    sanitizeDescription (sanitizeDescription s) = sanitizeDescription s := by
  unfold sanitizeDescription
  have hne : (splitOnChar ' ' s.data).map simplifyWord ≠ [] := by
    intro h0
    exact splitOnChar_ne_nil ' ' s.data (List.map_eq_nil_iff.mp h0)
  have hnospace : ∀ w ∈ (splitOnChar ' ' s.data).map simplifyWord, ' ' ∉ w := by
    intro w hw
    obtain ⟨u, hu, rfl⟩ := List.mem_map.mp hw
    exact not_space_simplifyWord (not_mem_of_mem_splitOnChar hu)
  have hdata : (String.mk (joinWith ' ' ((splitOnChar ' ' s.data).map simplifyWord))).data
      = joinWith ' ' ((splitOnChar ' ' s.data).map simplifyWord) := rfl
  rw [hdata, splitOnChar_joinWith hne hnospace]
  congr 1
  rw [List.map_map]
  congr 1
  apply List.map_congr_left
  intro a _
  exact simplifyWord_idem a

/-! ## Claims C1, C2, C9 -/

/-- C1: the outcome classifier `FindLoadResponse.cargado_exitoso` declares
success exactly when the snapshot's sub-file list is non-empty and the
first sub-file's message list is empty; any message in the first sub-file
(whatever its `tipo`) or an empty sub-file list yields failure. -/
theorem claim1_cargado_exitoso_iff_first_sin_mensajes (r : FindLoadResponse) :
    r.cargado_exitoso = true ↔
      ∃ a tl, r.archivos = a :: tl ∧ a.mensajes = [] := by
  unfold FindLoadResponse.cargado_exitoso FindLoadResponse.unico_archivo
    FindLoadResponse.primer_archivo
  cases harch : r.archivos with
  | nil => simp
  | cons a tl =>
    simp [Archivo.sin_errores, List.isEmpty_iff]

/-- C2 counterexample: on a snapshot whose first sub-file has two messages
the code's reason text is joined with `"| "` (pipe and space), not with
the bare `"|"` separator the claim states. -/
theorem claim2_counterexample_bare_pipe_separator :
    Archivo.motivo_error archivoDosMensajes ≠ motivoErrorClaimed archivoDosMensajes := by
  decide

/-- C2 (amended): for every sub-file with at least one message, the failure
reason is the `"<code>. <description>"` strings of its messages, in
original order, joined with the separator `"| "` (a pipe followed by one
space), each description having every path-like word reduced to its base
name (`sanitizeDescription`). -/
theorem claim2_motivo_error_joined_pipe_space (a : Archivo)
    (h : a.mensajes ≠ []) :
    a.motivo_error =
      String.intercalate "| "
        (a.mensajes.map
          (fun m => m.codigo ++ ". " ++ sanitizeDescription m.descripcion)) := by
  unfold Archivo.motivo_error
  rw [if_pos]
  · rfl
  · cases hm : a.mensajes with
    | nil => exact absurd hm h
    | cons m ms => rfl

/-- C2 witness: scenario B — a single message with code `E1` whose
description embeds `/tmp/x.zip` yields exactly
`"E1. El archivo x.zip no contiene PDF."`. -/
theorem claim2_witness :
    archivoEscenarioB.mensajes ≠ [] ∧
      Archivo.motivo_error archivoEscenarioB =
        "E1. El archivo x.zip no contiene PDF." :=
  ⟨by decide,
    (claim2_motivo_error_joined_pipe_space archivoEscenarioB (by decide)).trans
      (by decide)⟩

/-- C9: the path sanitization of a message description is idempotent —
sanitizing an already-sanitized description returns it unchanged. -/
theorem claim9_sanitization_idempotent (m : Mensaje) :
    sanitizeDescription m.simplified_description = m.simplified_description := by
  unfold Mensaje.simplified_description
  exact sanitizeDescription_idem m.descripcion

/-! ## Claim C3: the re-authentication wrapper -/

/-- C3: `_token_required` invokes the wrapped call at most twice.  A 401
`RequestException` on the first invocation triggers exactly one re-login
and exactly one retry, whose outcome — success, a second 401, or any other
failure — is propagated unchanged; a non-401 failure on the first
invocation propagates unchanged with no retry and no re-login. -/
theorem claim3_token_required_at_most_two_invocations {α : Type}
    (hasToken : Bool) (call : Nat → CallOutcome α) :
    (tokenRequired hasToken call).invocations ≤ 2 ∧
    (tokenRequired hasToken call).logins ≤ (if hasToken then 0 else 1) + 1 ∧
    (call 0 = .requestError (some 401) →
      (tokenRequired hasToken call).result = call 1 ∧
      (tokenRequired hasToken call).invocations = 2 ∧
      (tokenRequired hasToken call).logins = (if hasToken then 0 else 1) + 1) ∧
    (∀ e, call 0 = .requestError e → e ≠ some 401 →
      (tokenRequired hasToken call).result = .requestError e ∧
      (tokenRequired hasToken call).invocations = 1 ∧
      (tokenRequired hasToken call).logins = (if hasToken then 0 else 1)) ∧
    (∀ v, call 0 = .ok v →
      (tokenRequired hasToken call).result = .ok v ∧
      (tokenRequired hasToken call).invocations = 1) := by
  cases h0 : call 0 with
  | ok v =>
    simp [tokenRequired, h0]
  | requestError e =>
    cases e with
    | none =>
      simp [tokenRequired, h0]
    | some code =>
      by_cases hc : code = 401
      · subst hc
        simp [tokenRequired, h0]
      · simp [tokenRequired, h0, hc]

/-- C3 witness: with a token held, a first 401 followed by a successful
retry yields the retried value after exactly 2 invocations and 1 login. -/
theorem claim3_witness :
    (tokenRequired true callEjemplo).result = .ok 42 ∧
    (tokenRequired true callEjemplo).invocations = 2 ∧
    (tokenRequired true callEjemplo).logins = 1 := by
  obtain ⟨-, -, h3, -, -⟩ :=
    claim3_token_required_at_most_two_invocations true callEjemplo
  obtain ⟨ha, hb, hc⟩ := h3 rfl
  exact ⟨ha.trans rfl, hb, hc⟩

/-! ## Lemmas about the polling loop -/

theorem loop_fetches_le (responses : Nat → FindLoadResponse) (transId : String)
    (m fuel : Nat) (last : Option FindLoadResponse) :
    (findLoadStatusLoop responses transId m fuel last).fetches ≤ fuel := by
  induction fuel generalizing last with
  | zero => cases last <;> simp [findLoadStatusLoop]
  | succ fuel ih =>
    simp only [findLoadStatusLoop]
    split
    · simp
    · dsimp only
      exact Nat.succ_le_succ (ih _)

theorem loop_sleeps_le (responses : Nat → FindLoadResponse) (transId : String)
    (m fuel : Nat) (last : Option FindLoadResponse) :
    (findLoadStatusLoop responses transId m fuel last).sleeps ≤ fuel - 1 := by
  induction fuel generalizing last with
  | zero => cases last <;> simp [findLoadStatusLoop]
  | succ fuel ih =>
    simp only [findLoadStatusLoop]
    split
    · simp
    · dsimp only
      have h1 := ih (some (responses (m - (fuel + 1))))
      split <;> omega

theorem loop_first_done (responses : Nat → FindLoadResponse) (transId : String)
    (m : Nat) :
    ∀ fuel last k, fuel ≤ m → m - fuel ≤ k → k < m →
      (responses k).done = true →
      (∀ j, m - fuel ≤ j → j < k → (responses j).done = false) →
      findLoadStatusLoop responses transId m fuel last =
        ⟨.ok (responses k), k - (m - fuel) + 1, k - (m - fuel)⟩ := by
  intro fuel
  induction fuel with
  | zero =>
    intro last k h1 h2 h3 _ _
    omega
  | succ fuel ih =>
    intro last k hfm hk1 hk2 hdone hbefore
    by_cases hd : (responses (m - (fuel + 1))).done = true
    · have hkeq : k = m - (fuel + 1) := by
        by_contra hne
        have hklt : m - (fuel + 1) < k := by omega
        have hfalse := hbefore (m - (fuel + 1)) (le_refl _) hklt
        rw [hfalse] at hd
        exact Bool.false_ne_true hd
      subst hkeq
      simp only [findLoadStatusLoop, hd, if_true]
      have h0 : m - (fuel + 1) - (m - (fuel + 1)) = 0 := Nat.sub_self _
      rw [h0]
    · have hd' : (responses (m - (fuel + 1))).done = false :=
        Bool.eq_false_iff.mpr hd
      have hklt : m - (fuel + 1) < k := by
        rcases Nat.lt_or_ge (m - (fuel + 1)) k with h | h
        · exact h
        · have hkeq : k = m - (fuel + 1) := le_antisymm (by omega) hk1
          rw [hkeq] at hdone
          rw [hdone] at hd'
          exact absurd hd'.symm Bool.false_ne_true
      have hrest := ih (some (responses (m - (fuel + 1)))) k (by omega) (by omega)
        hk2 hdone (fun j hj1 hj2 => hbefore j (by omega) hj2)
      simp only [findLoadStatusLoop, hd', Bool.false_eq_true, if_false, hrest]
      have hcond : m - (fuel + 1) < m - 1 := by omega
      simp only [hcond, if_true, PollRun.mk.injEq]
      refine ⟨trivial, by omega, by omega⟩

theorem loop_all_not_done (responses : Nat → FindLoadResponse) (transId : String)
    (m : Nat) :
    ∀ fuel last, 1 ≤ fuel → fuel ≤ m →
      (∀ j, m - fuel ≤ j → j < m → (responses j).done = false) →
      findLoadStatusLoop responses transId m fuel last =
        ⟨.timeout ((responses (m - 1)).estado_basado_en_archivos) transId,
          fuel, fuel - 1⟩ := by
  intro fuel
  induction fuel with
  | zero =>
    intro last h1 _ _
    omega
  | succ fuel ih =>
    intro last h1 h2 hall
    have hd' : (responses (m - (fuel + 1))).done = false :=
      hall _ (le_refl _) (by omega)
    simp only [findLoadStatusLoop, hd', Bool.false_eq_true, if_false]
    cases fuel with
    | zero =>
      have hcond : ¬(m - (0 + 1) < m - 1) := by omega
      simp only [findLoadStatusLoop, hcond, if_false]
    | succ fuel' =>
      have hrest := ih (some (responses (m - (fuel' + 1 + 1)))) (by omega) (by omega)
        (fun j hj1 hj2 => hall j (by omega) hj2)
      rw [hrest]
      have hcond : m - (fuel' + 1 + 1) < m - 1 := by omega
      simp only [hcond, if_true, PollRun.mk.injEq]
      refine ⟨trivial, trivial, by omega⟩

theorem loop_ok_done (responses : Nat → FindLoadResponse) (transId : String)
    (m : Nat) :
    ∀ fuel last r, (findLoadStatusLoop responses transId m fuel last).result = .ok r →
      r.done = true := by
  intro fuel
  induction fuel with
  | zero =>
    intro last r h
    cases last <;> simp [findLoadStatusLoop] at h
  | succ fuel ih =>
    intro last r h
    by_cases hd : (responses (m - (fuel + 1))).done = true
    · simp only [findLoadStatusLoop, hd, if_true] at h
      have : responses (m - (fuel + 1)) = r := by
        simpa using h
      rw [← this]
      exact hd
    · have hd' : (responses (m - (fuel + 1))).done = false :=
        Bool.eq_false_iff.mpr hd
      simp only [findLoadStatusLoop, hd', Bool.false_eq_true, if_false] at h
      exact ih (some (responses (m - (fuel + 1)))) r h

/-! ## Claims C4, C5, C10 -/

/-- C4: for `max_retries ≥ 1` and any snapshot sequence, `find_load_status`
performs at most `max_retries` fetches and at most `max_retries - 1`
sleeps; it returns immediately upon the first terminal snapshot (after
`k + 1` fetches and `k` sleeps when the first terminal snapshot is the
`k`-th); and a snapshot is terminal (`done`) exactly when its first
sub-file's state is `"CARGADO"`. -/
theorem claim4_poller_bounds_and_early_return
    (responses : Nat → FindLoadResponse) (transId : String) (max_retries : Nat)
    (hmax : 1 ≤ max_retries) :
    (find_load_status responses transId max_retries).fetches ≤ max_retries ∧
    (find_load_status responses transId max_retries).sleeps ≤ max_retries - 1 ∧
    (∀ k, k < max_retries → (responses k).done = true →
      (∀ j, j < k → (responses j).done = false) →
      find_load_status responses transId max_retries =
        ⟨.ok (responses k), k + 1, k⟩) ∧
    (∀ r : FindLoadResponse, r.done = true ↔
      ∃ a tl, r.archivos = a :: tl ∧ a.estado = "CARGADO") := by
  refine ⟨loop_fetches_le responses transId max_retries max_retries none,
    loop_sleeps_le responses transId max_retries max_retries none, ?_, ?_⟩
  · intro k hk hdone hbefore
    have h := loop_first_done responses transId max_retries max_retries none k
      (le_refl _) (by omega) hk hdone (fun j hj1 hj2 => hbefore j hj2)
    simpa [find_load_status, Nat.sub_self] using h
  · intro r
    unfold FindLoadResponse.done FindLoadResponse.primer_archivo Archivo.cargado
    cases harch : r.archivos with
    | nil => simp
    | cons a tl => simp

/-- C4 witness: an immediately terminal sequence with `max_retries = 2`
returns the first snapshot after exactly 1 fetch and 0 sleeps. -/
theorem claim4_witness :
    find_load_status respuestasCargadas "tid" 2 = ⟨.ok respuestaCargada, 1, 0⟩ ∧
    (find_load_status respuestasCargadas "tid" 2).fetches ≤ 2 := by
  obtain ⟨h1, -, h3, -⟩ :=
    claim4_poller_bounds_and_early_return respuestasCargadas "tid" 2 (by decide)
  exact ⟨h3 0 (by decide) (by decide) (fun j hj => absurd hj (Nat.not_lt_zero j)), h1⟩

/-- C5: when all `max_retries` snapshots are non-terminal the poller raises
(does not return normally): the result is the `ValueError` carrying the
last observed state (`estado_basado_en_archivos` of the final snapshot)
and the transaction id, after exactly `max_retries` fetches and
`max_retries - 1` sleeps; and the carried state is the first sub-file's
state, or the root state when no sub-file exists. -/
theorem claim5_poll_timeout_carries_state_and_key
    (responses : Nat → FindLoadResponse) (transId : String) (max_retries : Nat)
    (hmax : 1 ≤ max_retries)
    (hall : ∀ k, k < max_retries → (responses k).done = false) :
    find_load_status responses transId max_retries =
      ⟨.timeout ((responses (max_retries - 1)).estado_basado_en_archivos) transId,
        max_retries, max_retries - 1⟩ ∧
    (∀ (r : FindLoadResponse) (a : Archivo) (tl : List Archivo),
      r.archivos = a :: tl → r.estado_basado_en_archivos = a.estado) ∧
    (∀ r : FindLoadResponse, r.archivos = [] →
      r.estado_basado_en_archivos = r.estado) := by
  refine ⟨?_, ?_, ?_⟩
  · exact loop_all_not_done responses transId max_retries max_retries none hmax
      (le_refl _) (fun j hj1 hj2 => hall j hj2)
  · intro r a tl h
    unfold FindLoadResponse.estado_basado_en_archivos FindLoadResponse.primer_archivo
    rw [h]
    rfl
  · intro r h
    unfold FindLoadResponse.estado_basado_en_archivos FindLoadResponse.primer_archivo
    rw [h]
    rfl

/-- C5 witness: two consecutive `EN_PROCESO` snapshots with
`max_retries = 2` end in the timeout error carrying `"EN_PROCESO"` and the
transaction id, after 2 fetches and 1 sleep. -/
theorem claim5_witness :
    find_load_status respuestasEnProceso "tid" 2 =
      ⟨.timeout "EN_PROCESO" "tid", 2, 1⟩ := by
  obtain ⟨h1, -, -⟩ :=
    claim5_poll_timeout_carries_state_and_key respuestasEnProceso "tid" 2
      (by decide) (fun k _ => rfl)
  exact h1.trans (by decide)

/-- C10: every snapshot the poller returns normally is terminal: its
sub-file list is non-empty, the first sub-file's state is `"CARGADO"`, and
`primer_archivo` / `unico_archivo` are defined (no out-of-bounds access). -/
theorem claim10_poller_ok_first_archivo_cargado
    (responses : Nat → FindLoadResponse) (transId : String) (max_retries : Nat)
    (resp : FindLoadResponse) (f s : Nat)
    (h : find_load_status responses transId max_retries = ⟨.ok resp, f, s⟩) :
    ∃ a tl, resp.archivos = a :: tl ∧ a.estado = "CARGADO" ∧
      resp.primer_archivo = some a ∧ resp.unico_archivo = some a := by
  have hres : (findLoadStatusLoop responses transId max_retries max_retries none).result
      = .ok resp := by
    unfold find_load_status at h
    rw [h]
  have hdone : resp.done = true :=
    loop_ok_done responses transId max_retries max_retries none resp hres
  unfold FindLoadResponse.done at hdone
  cases harch : resp.archivos with
  | nil =>
    unfold FindLoadResponse.primer_archivo at hdone
    rw [harch] at hdone
    simp at hdone
  | cons a tl =>
    unfold FindLoadResponse.primer_archivo at hdone
    rw [harch] at hdone
    simp only [List.head?_cons] at hdone
    have hest : a.estado = "CARGADO" := by
      have : a.cargado = true := hdone
      unfold Archivo.cargado at this
      simpa using this
    refine ⟨a, tl, rfl, hest, ?_, ?_⟩
    · unfold FindLoadResponse.primer_archivo
      rw [harch]
      rfl
    · unfold FindLoadResponse.unico_archivo FindLoadResponse.primer_archivo
      rw [harch]
      rfl

/-- C10 witness: applied to the one-attempt run that returns the terminal
snapshot. -/
theorem claim10_witness :
    ∃ a tl, respuestaCargada.archivos = a :: tl ∧ a.estado = "CARGADO" ∧
      respuestaCargada.primer_archivo = some a ∧
      respuestaCargada.unico_archivo = some a :=
  claim10_poller_ok_first_archivo_cargado respuestasCargadas "tid" 1
    respuestaCargada 1 0 (by decide)

/-! ## Claims C6, C7: the run ledger -/

/-- C6 counterexample: `post_exception`'s `errors.append(reason)` is an
in-place list mutation that never reaches `Record.__setattr__`: with the
wall clock at 5 (≥ the record's `finished_at = 0`), the append leaves the
last-mutated-at timestamp at 0 instead of refreshing it to 5. -/
theorem claim6_counterexample_append_not_refreshed :
    recordEjemplo.finished_at = 0 ∧ (0 : Nat) ≤ 5 ∧
      (recordEjemplo.errors_append "boom").finished_at ≠ 5 :=
  ⟨rfl, by omega, by decide⟩

/-- C6 (amended): every write dispatched through `Record.__setattr__` with
a field name other than `finished_at` refreshes `finished_at` to the
current clock value, hence to a value ≥ its previous one under a monotone
clock; the in-place `errors.append` bypasses `__setattr__` and leaves
`finished_at` unchanged; and along every trace of the mutations the
program performs (pydantic construction followed by status/response
assignments and error appends) the invariant
`started_at ≤ finished_at` holds. -/
theorem claim6_setattr_refreshes_finished_at
    (r : Record) (now : Nat) (f : FieldWrite) (reason : String)
    (hnow : r.finished_at ≤ now)
    (e : EmailMessage) (t0 t1 : Nat) (ht : t0 ≤ t1)
    (r0 rEnd : Record) (hcon : Record.construct (some e) t0 t1 = .ok r0)
    (hev : RecordEvolves r0 rEnd) :
    (f.fieldName ≠ "finished_at" →
      (r.setattr now f).finished_at = now ∧
      r.finished_at ≤ (r.setattr now f).finished_at) ∧
    (r.errors_append reason).finished_at = r.finished_at ∧
    rEnd.started_at ≤ rEnd.finished_at := by
  refine ⟨?_, rfl, ?_⟩
  · intro hf
    cases f with
    | started_at v => exact ⟨rfl, hnow⟩
    | email v => exact ⟨rfl, hnow⟩
    | response_mutualser v => exact ⟨rfl, hnow⟩
    | status v => exact ⟨rfl, hnow⟩
    | errors v => exact ⟨rfl, hnow⟩
    | finished_at v => exact absurd rfl hf
  · have hr0 : r0.started_at ≤ r0.finished_at := by
      have : r0 = ⟨t0, e, none, "", [], t1⟩ := by
        have hco : Record.construct (some e) t0 t1 = .ok (⟨t0, e, none, "", [], t1⟩ : Record) := rfl
        rw [hco] at hcon
        exact (Except.ok.injEq _ _ ▸ hcon).symm
      rw [this]
      exact ht
    clear hcon
    induction hev with
    | refl => exact hr0
    | set_status h now' hnow' v ih => exact le_trans ih (le_trans hnow' (le_of_eq rfl))
    | set_response h now' hnow' v ih => exact le_trans ih (le_trans hnow' (le_of_eq rfl))
    | append_error h v ih => exact ih

/-- C6 witness: a status write at time 5 refreshes the timestamp of the
freshly-constructed record to 5; the append leaves it unchanged; the
invariant holds on the constructed record. -/
theorem claim6_witness :
    (recordEjemplo.setattr 5 (.status "S")).finished_at = 5 ∧
    (recordEjemplo.errors_append "boom").finished_at = recordEjemplo.finished_at ∧
    recordEjemplo.started_at ≤ recordEjemplo.finished_at := by
  obtain ⟨h1, h2, h3⟩ :=
    claim6_setattr_refreshes_finished_at recordEjemplo 5 (.status "S") "boom"
      (by decide) emailEjemplo 0 0 (by omega) recordEjemplo recordEjemplo rfl
      (RecordEvolves.refl recordEjemplo)
  exact ⟨(h1 (by decide)).1, h2, h3⟩

/-- C7: evaluating the ledger at the failing input.  On a fresh `Run`,
accessing an invoice id never begun makes `defaultdict` call the factory
`Record()`, which pydantic rejects because `email` is a required field —
no default record is created, contrary to the claim's last clause.  For an
id already present, a repeated access is idempotent as claimed: it returns
the same single stored record and leaves the mapping untouched. -/
theorem claim7_default_construction_raises :
    Run.getRecord ⟨0, []⟩ "LGFM123" 0 0 = .error ⟨"email"⟩ ∧
    Run.getRecord ⟨0, [("LGFM123", recordEjemplo)]⟩ "LGFM123" 5 6 =
      .ok (⟨0, [("LGFM123", recordEjemplo)]⟩, recordEjemplo) :=
  ⟨rfl, rfl⟩

/-! ## Lemmas about the session headers -/

theorem headers_find?_append (l1 l2 : Headers) (p : String × String → Bool)
    (h : l1.find? p = none) : (l1 ++ l2).find? p = l2.find? p := by
  induction l1 with
  | nil => rfl
  | cons q t ih =>
    cases hq : p q with
    | true =>
      rw [List.find?_cons_of_pos t hq] at h
      exact absurd h (by simp)
    | false =>
      rw [List.find?_cons_of_neg t (by simp [hq])] at h
      rw [List.cons_append, List.find?_cons_of_neg _ (by simp [hq])]
      exact ih h

theorem headers_find?_append_some (l1 l2 : Headers) (p : String × String → Bool)
    (q : String × String) (h : l1.find? p = some q) :
    (l1 ++ l2).find? p = some q := by
  induction l1 with
  | nil => simp at h
  | cons x t ih =>
    cases hx : p x with
    | true =>
      rw [List.find?_cons_of_pos t hx] at h
      rw [List.cons_append, List.find?_cons_of_pos _ hx]
      exact h
    | false =>
      rw [List.find?_cons_of_neg t (by simp [hx])] at h
      rw [List.cons_append, List.find?_cons_of_neg _ (by simp [hx])]
      exact ih h

theorem headers_find?_none (t : Headers) (k k' : String)
    (hk : lowerKey k' = lowerKey k)
    (h : t.any (fun p => lowerKey p.1 == lowerKey k) = false) :
    t.find? (fun p => lowerKey p.1 == lowerKey k') = none := by
  induction t with
  | nil => rfl
  | cons q t ih =>
    rw [List.any_cons, Bool.or_eq_false_iff] at h
    obtain ⟨hq, ht⟩ := h
    rw [@List.find?_cons_of_neg _ (fun p => lowerKey p.1 == lowerKey k') q _
      (by rw [hk]; simp [hq])]
    exact ih ht

theorem headers_find?_map_replace_self (t : Headers) (k v k' : String)
    (hk : lowerKey k' = lowerKey k)
    (hany : t.any (fun p => lowerKey p.1 == lowerKey k) = true) :
    (t.map (fun p => if lowerKey p.1 == lowerKey k then (k, v) else p)).find?
      (fun p => lowerKey p.1 == lowerKey k') = some (k, v) := by
  induction t with
  | nil => simp at hany
  | cons q t ih =>
    rw [List.any_cons, Bool.or_eq_true] at hany
    by_cases hq : (lowerKey q.1 == lowerKey k) = true
    · rw [List.map_cons, if_pos hq]
      exact List.find?_cons_of_pos _ (by show (lowerKey k == lowerKey k') = true; rw [hk]; simp)
    · rw [List.map_cons, if_neg hq]
      rw [@List.find?_cons_of_neg _ (fun p => lowerKey p.1 == lowerKey k') q _
        (by rw [hk]; exact hq)]
      rcases hany with hh | hh
      · exact absurd hh hq
      · exact ih hh

theorem headers_find?_map_replace_other (t : Headers) (k v k' : String)
    (hk : lowerKey k' ≠ lowerKey k) :
    (t.map (fun p => if lowerKey p.1 == lowerKey k then (k, v) else p)).find?
      (fun p => lowerKey p.1 == lowerKey k') =
      t.find? (fun p => lowerKey p.1 == lowerKey k') := by
  induction t with
  | nil => rfl
  | cons q t ih =>
    by_cases hq : (lowerKey q.1 == lowerKey k) = true
    · have hqk : lowerKey q.1 = lowerKey k := by simpa using hq
      have h1 : ¬(lowerKey (k, v).1 == lowerKey k') = true := by
        show ¬(lowerKey k == lowerKey k') = true
        intro hc
        exact hk ((by simpa using hc : lowerKey k = lowerKey k')).symm
      have h2 : ¬(lowerKey q.1 == lowerKey k') = true := by
        rw [hqk]
        intro hc
        exact hk ((by simpa using hc : lowerKey k = lowerKey k')).symm
      rw [List.map_cons, if_pos hq,
        @List.find?_cons_of_neg _ (fun p => lowerKey p.1 == lowerKey k') (k, v) _ h1,
        @List.find?_cons_of_neg _ (fun p => lowerKey p.1 == lowerKey k') q _ h2, ih]
    · rw [List.map_cons, if_neg hq]
      by_cases hq' : (lowerKey q.1 == lowerKey k') = true
      · rw [@List.find?_cons_of_pos _ (fun p => lowerKey p.1 == lowerKey k') q _ hq',
          @List.find?_cons_of_pos _ (fun p => lowerKey p.1 == lowerKey k') q _ hq']
      · rw [@List.find?_cons_of_neg _ (fun p => lowerKey p.1 == lowerKey k') q _ hq',
          @List.find?_cons_of_neg _ (fun p => lowerKey p.1 == lowerKey k') q _ hq', ih]

theorem headers_find?_filter_del_self (t : Headers) (k k' : String)
    (hk : lowerKey k' = lowerKey k) :
    (t.filter (fun p => !(lowerKey p.1 == lowerKey k))).find?
      (fun p => lowerKey p.1 == lowerKey k') = none := by
  induction t with
  | nil => rfl
  | cons q t ih =>
    rw [List.filter_cons]
    by_cases hq : (lowerKey q.1 == lowerKey k) = true
    · rw [if_neg (by simp [hq])]
      exact ih
    · have hqf : (lowerKey q.1 == lowerKey k) = false := Bool.eq_false_iff.mpr hq
      rw [if_pos (by simp [hqf])]
      rw [@List.find?_cons_of_neg _ (fun p => lowerKey p.1 == lowerKey k') q _
        (by rw [hk]; exact hq)]
      exact ih

theorem headers_find?_filter_del_other (t : Headers) (k k' : String)
    (hk : lowerKey k' ≠ lowerKey k) :
    (t.filter (fun p => !(lowerKey p.1 == lowerKey k))).find?
      (fun p => lowerKey p.1 == lowerKey k') =
      t.find? (fun p => lowerKey p.1 == lowerKey k') := by
  induction t with
  | nil => rfl
  | cons q t ih =>
    rw [List.filter_cons]
    by_cases hq : (lowerKey q.1 == lowerKey k) = true
    · have hqk : lowerKey q.1 = lowerKey k := by simpa using hq
      rw [if_neg (by simp [hq])]
      rw [@List.find?_cons_of_neg _ (fun p => lowerKey p.1 == lowerKey k') q _
        (by show ¬(lowerKey q.1 == lowerKey k') = true
            rw [hqk]
            intro hc
            exact hk ((by simpa using hc : lowerKey k = lowerKey k')).symm)]
      exact ih
    · have hqf : (lowerKey q.1 == lowerKey k) = false := Bool.eq_false_iff.mpr hq
      rw [if_pos (by simp [hqf])]
      by_cases hq' : (lowerKey q.1 == lowerKey k') = true
      · rw [@List.find?_cons_of_pos _ (fun p => lowerKey p.1 == lowerKey k') q _ hq',
          @List.find?_cons_of_pos _ (fun p => lowerKey p.1 == lowerKey k') q _ hq']
      · rw [@List.find?_cons_of_neg _ (fun p => lowerKey p.1 == lowerKey k') q _ hq',
          @List.find?_cons_of_neg _ (fun p => lowerKey p.1 == lowerKey k') q _ hq', ih]

theorem headersGet_set_self (h : Headers) (k v k' : String)
    (hk : lowerKey k' = lowerKey k) :
    headersGet (headersSet h k v) k' = some v := by
  unfold headersGet headersSet
  by_cases hany : (h.any (fun p => lowerKey p.1 == lowerKey k)) = true
  · rw [if_pos hany, headers_find?_map_replace_self h k v k' hk hany]
    rfl
  · have hany' : h.any (fun p => lowerKey p.1 == lowerKey k) = false :=
      Bool.eq_false_iff.mpr hany
    rw [if_neg hany, headers_find?_append _ _ _ (headers_find?_none h k k' hk hany')]
    rw [@List.find?_cons_of_pos _ (fun p => lowerKey p.1 == lowerKey k') (k, v) _
      (by show (lowerKey k == lowerKey k') = true; rw [hk]; simp)]
    rfl

theorem headersGet_set_other (h : Headers) (k v k' : String)
    (hk : lowerKey k' ≠ lowerKey k) :
    headersGet (headersSet h k v) k' = headersGet h k' := by
  unfold headersGet headersSet
  by_cases hany : (h.any (fun p => lowerKey p.1 == lowerKey k)) = true
  · rw [if_pos hany, headers_find?_map_replace_other h k v k' hk]
  · rw [if_neg hany]
    have hkv : ¬(lowerKey (k, v).1 == lowerKey k') = true := by
      show ¬(lowerKey k == lowerKey k') = true
      intro hc
      exact hk ((by simpa using hc : lowerKey k = lowerKey k')).symm
    cases hfind : h.find? (fun p => lowerKey p.1 == lowerKey k') with
    | none =>
      rw [headers_find?_append _ _ _ hfind,
        @List.find?_cons_of_neg _ (fun p => lowerKey p.1 == lowerKey k') (k, v) _ hkv]
      rfl
    | some q =>
      rw [headers_find?_append_some _ _ _ q hfind]

theorem headersGet_del_self (h : Headers) (k k' : String)
    (hk : lowerKey k' = lowerKey k) :
    headersGet (headersDel h k) k' = none := by
  unfold headersGet headersDel
  rw [headers_find?_filter_del_self h k k' hk]
  rfl

theorem headersGet_del_other (h : Headers) (k k' : String)
    (hk : lowerKey k' ≠ lowerKey k) :
    headersGet (headersDel h k) k' = headersGet h k' := by
  unfold headersGet headersDel
  rw [headers_find?_filter_del_other h k k' hk]

/-! ## Claim C8: no transfer-specific header leaks -/

/-- C8: after the transfer-bytes step of `upload_to_google`, the session
headers carry no transfer-specific overrides: the content-type header is
restored to the JSON content type, the explicit content-length header is
removed, and every other session header is unchanged. -/
theorem claim8_no_transfer_header_leak (h : Headers) (contentLength : String) :
    headersGet (upload_to_google_headers h contentLength) "Content-Type" =
      some "application/json" ∧
    headersGet (upload_to_google_headers h contentLength) "Content-Length" = none ∧
    (∀ k, lowerKey k ≠ "content-type" → lowerKey k ≠ "content-length" →
      headersGet (upload_to_google_headers h contentLength) k = headersGet h k) := by
  have ect : lowerKey "Content-Type" = "content-type" := by decide
  have ecl : lowerKey "Content-Length" = "content-length" := by decide
  unfold upload_to_google_headers
  refine ⟨?_, ?_, ?_⟩
  · rw [headersGet_del_other _ _ _ (by rw [ect, ecl]; decide)]
    exact headersGet_set_self _ _ _ _ rfl
  · exact headersGet_del_self _ _ _ rfl
  · intro k hk1 hk2
    have hct : lowerKey k ≠ lowerKey "Content-Type" := by rw [ect]; exact hk1
    have hcl : lowerKey k ≠ lowerKey "Content-Length" := by rw [ecl]; exact hk2
    rw [headersGet_del_other _ _ _ hcl, headersGet_set_other _ _ _ _ hct,
      headersGet_set_other _ _ _ _ hcl, headersGet_set_other _ _ _ _ hct]

/-- C8 witness: on the post-login session headers with a content length of
`"123"`, the restored mapping has the JSON content type, no content
length, and the untouched `Authorization` header. -/
theorem claim8_witness :
    headersGet (upload_to_google_headers headersEjemplo "123") "Content-Type" =
      some "application/json" ∧
    headersGet (upload_to_google_headers headersEjemplo "123") "Content-Length" = none ∧
    headersGet (upload_to_google_headers headersEjemplo "123") "Authorization" =
      headersGet headersEjemplo "Authorization" := by
  obtain ⟨h1, h2, h3⟩ := claim8_no_transfer_header_leak headersEjemplo "123"
  exact ⟨h1, h2, h3 "Authorization" (by decide) (by decide)⟩

end RpaFacturas
